import Mathlib

/-!
Shallow embedding of the DIGIPIN encoder/decoder (repository `digipinindia`).

The source has two implementations of the same algorithm:
* `src/index.ts` — the untyped module (errors thrown as template strings,
  decode returns latitude/longitude formatted with `toFixed(6)` as strings);
  embedded below at top level.
* the typed variant (`src/unnamed/part_000`) — same grid subdivision with a
  different clamp order in the encoder and numeric decode output
  (`Math.round(x * 1000000) / 1000000`); embedded in namespace `Typed`.

JavaScript numbers are modelled by exact rationals (`ℚ`); `Math.floor` is
`Int.floor` and `Math.round x` is `⌊x + 1/2⌋` (JS rounds ties toward +∞).
A thrown `Error` is modelled as an `Except.error` carrying a structured value
holding exactly the data interpolated into the thrown message.
-/

namespace Digipin

/-- The 4×4 symbol table `DIGIPIN_GRID` from the source. -/
def DIGIPIN_GRID : List (List Char) :=
  [['F', 'C', '9', '8'],
   ['J', '3', '2', '7'],
   ['K', '4', '5', '6'],
   ['L', 'M', 'P', 'T']]

/-- `DIGIPIN_GRID[row][col]`; the default `' '` models the out-of-range
(`undefined`) access, which never occurs for clamped indices. -/
def gridChar (row col : ℤ) : Char :=
  (DIGIPIN_GRID.getD row.toNat []).getD col.toNat ' '

/-- The entries inserted into `CHAR_TO_POSITION` by the initialization loop
`for r in 0..3, for c in 0..3: set(DIGIPIN_GRID[r][c], {row: r, col: c})`. -/
def CHAR_TO_POSITION_entries : List (Char × ℤ × ℤ) :=
  ((List.range 4).map (fun r =>
    (List.range 4).map (fun c =>
      ((DIGIPIN_GRID.getD r []).getD c ' ', ((r : ℤ), (c : ℤ)))))).flatten

/-- The `CHAR_TO_POSITION` map: `Map.get` returns the stored position or
`undefined` (here `none`). -/
def CHAR_TO_POSITION (ch : Char) : Option (ℤ × ℤ) :=
  (CHAR_TO_POSITION_entries.find? (fun e => e.1 == ch)).map (fun e => e.2)

/-- The `BOUNDS` constant of the source. -/
structure BoundsBox where
  minLat : ℚ
  maxLat : ℚ
  minLon : ℚ
  maxLon : ℚ
  latRange : ℚ
  lonRange : ℚ

def BOUNDS : BoundsBox :=
  { minLat := 2.5, maxLat := 38.5, minLon := 63.5, maxLon := 99.5,
    latRange := 36.0, lonRange := 36.0 }

def DIGIPIN_LENGTH : Nat := 10

def GRID_SIZE : ℚ := 4

/-- Structured rendering of the thrown `Error` messages: each constructor
carries exactly the values interpolated into the message string. -/
inductive DigiPinError where
  | outOfRangeLat (value lo hi : ℚ)
  | outOfRangeLon (value lo hi : ℚ)
  | invalidLength (got expected : Nat)
  | invalidChar (ch : Char) (index : Nat)
deriving DecidableEq, Repr

/-- The mutable working rectangle `{minLat, maxLat, minLon, maxLon}`. -/
@[ext] structure Rect where
  minLat : ℚ
  maxLat : ℚ
  minLon : ℚ
  maxLon : ℚ
deriving DecidableEq, Repr

/-- The initial working rectangle (the bounding box). -/
def initRect : Rect :=
  { minLat := BOUNDS.minLat, maxLat := BOUNDS.maxLat,
    minLon := BOUNDS.minLon, maxLon := BOUNDS.maxLon }

/-- `row = Math.min(3, Math.max(0, 3 - Math.floor((lat - minLat) / latDiv)))`
of `src/index.ts` line 68. -/
def rowIndex (lat : ℚ) (r : Rect) : ℤ :=
  min 3 (max 0 (3 - ⌊(lat - r.minLat) / ((r.maxLat - r.minLat) / GRID_SIZE)⌋))

/-- `col = Math.min(3, Math.max(0, Math.floor((lon - minLon) / lonDiv)))`
of `src/index.ts` line 69. -/
def colIndex (lon : ℚ) (r : Rect) : ℤ :=
  min 3 (max 0 ⌊(lon - r.minLon) / ((r.maxLon - r.minLon) / GRID_SIZE)⌋)

/-- One iteration of the encoder loop of `src/index.ts` (lines 63–86): the
clamped row/column selection and the narrowing of the working rectangle.
Returns the emitted character and the narrowed rectangle. -/
def encodeStep (lat lon : ℚ) (r : Rect) : Char × Rect :=
  let latDiv := (r.maxLat - r.minLat) / GRID_SIZE
  let lonDiv := (r.maxLon - r.minLon) / GRID_SIZE
  let row : ℤ := rowIndex lat r
  let col : ℤ := colIndex lon r
  let newMinLat := r.minLat + latDiv * ((3 - row : ℤ) : ℚ)
  let newMinLon := r.minLon + lonDiv * ((col : ℤ) : ℚ)
  (gridChar row col,
   { minLat := newMinLat, maxLat := newMinLat + latDiv,
     minLon := newMinLon, maxLon := newMinLon + lonDiv })

/-- The encoder loop: `fuel` remaining iterations, `level` the current loop
index; pushes a hyphen after the 3rd and 6th character
(`HYPHEN_POSITIONS.has(level + 1)` with `HYPHEN_POSITIONS = {3, 6}`). -/
def encodeLevels (lat lon : ℚ) : Nat → Nat → Rect → List Char
  | 0, _, _ => []
  | fuel + 1, level, r =>
    let s := encodeStep lat lon r
    let rest := encodeLevels lat lon fuel (level + 1) s.2
    if level + 1 = 3 ∨ level + 1 = 6 then s.1 :: '-' :: rest else s.1 :: rest

/-- `getDigiPin` of `src/index.ts`: range validation then the ten-level loop. -/
def getDigiPin (lat lon : ℚ) : Except DigiPinError String :=
  if lat < BOUNDS.minLat ∨ lat > BOUNDS.maxLat then
    .error (.outOfRangeLat lat BOUNDS.minLat BOUNDS.maxLat)
  else if lon < BOUNDS.minLon ∨ lon > BOUNDS.maxLon then
    .error (.outOfRangeLon lon BOUNDS.minLon BOUNDS.maxLon)
  else
    .ok (String.mk (encodeLevels lat lon DIGIPIN_LENGTH 0 initRect))

/-- One iteration of the decoder loop of `src/index.ts` (lines 117–131):
narrow the rectangle to the cell named by `(row, col)`. -/
def decodeStep (r : Rect) (row col : ℤ) : Rect :=
  let latDiv := (r.maxLat - r.minLat) / GRID_SIZE
  let lonDiv := (r.maxLon - r.minLon) / GRID_SIZE
  { minLat := r.maxLat - latDiv * ((row : ℤ) + 1 : ℤ),
    maxLat := r.maxLat - latDiv * ((row : ℤ) : ℚ),
    minLon := r.minLon + lonDiv * ((col : ℤ) : ℚ),
    maxLon := r.minLon + lonDiv * ((col : ℤ) + 1 : ℤ) }

/-- The decoder loop over the stripped pin, carrying the loop index `i` used
in the `Invalid character ... at position i` error. -/
def decodeLoop : List Char → Nat → Rect → Except DigiPinError Rect
  | [], _, r => .ok r
  | c :: cs, i, r =>
    match CHAR_TO_POSITION c with
    | none => .error (.invalidChar c i)
    | some (row, col) => decodeLoop cs (i + 1) (decodeStep r row col)

/-- The hyphen strip (`digiPin.replace` of every hyphen with the empty
string): the hyphen-free character sequence. -/
def stripHyphens (s : String) : List Char :=
  s.toList.filter (fun c => c ≠ '-')

/-- `centerLat.toFixed(6)`: decimal string with exactly six digits after the
point.  For the nonnegative values produced here, `toFixed` rounds to nearest
with ties upward, i.e. the printed integer is `⌊x * 10^6 + 1/2⌋`. -/
def toFixed6 (x : ℚ) : String :=
  let n : ℤ := ⌊x * 1000000 + 1 / 2⌋
  let ip := n / 1000000
  let fp := (n % 1000000).toNat
  let fs := toString fp
  toString ip ++ "." ++ String.mk (List.replicate (6 - fs.length) '0') ++ fs

/-- `getLatLngFromDigiPin` of `src/index.ts`: strip hyphens, check the length,
run the decoder loop, return the cell center formatted with `toFixed(6)`
(display strings). -/
def getLatLngFromDigiPin (digiPin : String) :
    Except DigiPinError (String × String) :=
  let pin := stripHyphens digiPin
  if pin.length ≠ DIGIPIN_LENGTH then
    .error (.invalidLength pin.length DIGIPIN_LENGTH)
  else
    match decodeLoop pin 0 initRect with
    | .error e => .error e
    | .ok r =>
      (.ok (toFixed6 ((r.minLat + r.maxLat) * 0.5),
            toFixed6 ((r.minLon + r.maxLon) * 0.5)))

/-- JS `Math.round`: nearest integer, ties toward +∞. -/
def mathRound (x : ℚ) : ℤ := ⌊x + 1 / 2⌋

namespace Typed

/-- The typed variant's row selection (`src/unnamed/part_000` lines 77–80):
step computed as `range * 0.25`, the upper clamp applied before the row
inversion and the lower clamp after it. -/
def rowIndex (lat : ℚ) (r : Rect) : ℤ :=
  let row0 : ℤ := ⌊(lat - r.minLat) / ((r.maxLat - r.minLat) * 0.25)⌋
  let row1 : ℤ := if row0 > 3 then 3 else row0
  let row2 : ℤ := 3 - row1
  if row2 < 0 then 0 else row2

/-- The typed variant's column selection (`src/unnamed/part_000` lines 82–84). -/
def colIndex (lon : ℚ) (r : Rect) : ℤ :=
  let col0 : ℤ := ⌊(lon - r.minLon) / ((r.maxLon - r.minLon) * 0.25)⌋
  let col1 : ℤ := if col0 > 3 then 3 else col0
  if col1 < 0 then 0 else col1

/-- One iteration of the typed variant's encoder loop
(`src/unnamed/part_000` lines 64–100). -/
def encodeStep (lat lon : ℚ) (r : Rect) : Char × Rect :=
  let latDiv := (r.maxLat - r.minLat) * 0.25
  let lonDiv := (r.maxLon - r.minLon) * 0.25
  let row : ℤ := Typed.rowIndex lat r
  let col : ℤ := Typed.colIndex lon r
  let newMinLat := r.minLat + latDiv * ((3 - row : ℤ) : ℚ)
  let newMinLon := r.minLon + lonDiv * ((col : ℤ) : ℚ)
  (gridChar row col,
   { minLat := newMinLat, maxLat := newMinLat + latDiv,
     minLon := newMinLon, maxLon := newMinLon + lonDiv })

/-- One iteration of the typed variant's decoder loop
(`src/unnamed/part_000` lines 137–165): `newMinLat = maxLat - latDiv*row -
latDiv`, `newMaxLon = newMinLon + lonDiv`. -/
def decodeStep (r : Rect) (row col : ℤ) : Rect :=
  let latDiv := (r.maxLat - r.minLat) * 0.25
  let lonDiv := (r.maxLon - r.minLon) * 0.25
  let newMinLon := r.minLon + lonDiv * ((col : ℤ) : ℚ)
  { minLat := r.maxLat - latDiv * ((row : ℤ) : ℚ) - latDiv,
    maxLat := r.maxLat - latDiv * ((row : ℤ) : ℚ),
    minLon := newMinLon,
    maxLon := newMinLon + lonDiv }

/-- The typed variant's decoder loop. -/
def decodeLoop : List Char → Nat → Rect → Except DigiPinError Rect
  | [], _, r => .ok r
  | c :: cs, i, r =>
    match CHAR_TO_POSITION c with
    | none => .error (.invalidChar c i)
    | some (row, col) => decodeLoop cs (i + 1) (Typed.decodeStep r row col)

/-- `getLatLngFromDigiPin` of the typed variant: numeric output
`Math.round(center * 1000000) / 1000000`. -/
def getLatLngFromDigiPin (digiPin : String) :
    Except DigiPinError (ℚ × ℚ) :=
  let pin := stripHyphens digiPin
  if pin.length ≠ DIGIPIN_LENGTH then
    .error (.invalidLength pin.length DIGIPIN_LENGTH)
  else
    match Typed.decodeLoop pin 0 initRect with
    | .error e => .error e
    | .ok r =>
      (.ok ((mathRound ((r.minLat + r.maxLat) * 0.5 * 1000000) : ℚ) / 1000000,
            (mathRound ((r.minLon + r.maxLon) * 0.5 * 1000000) : ℚ) / 1000000))

end Typed

/-- Propagate `Except.error` to an `Option`: the error a call raises, if any. -/
def exceptError {ε α : Type} : Except ε α → Option ε
  | .error e => some e
  | .ok _ => none

instance {ε α : Type} [DecidableEq ε] [DecidableEq α] :
    DecidableEq (Except ε α) := fun a b =>
  match a, b with
  | .ok x, .ok y =>
    if h : x = y then .isTrue (by rw [h]) else .isFalse (by simp [h])
  | .error x, .error y =>
    if h : x = y then .isTrue (by rw [h]) else .isFalse (by simp [h])
  | .ok _, .error _ => .isFalse (by simp)
  | .error _, .ok _ => .isFalse (by simp)

/-- The sequence of the ten grid characters the encoder loop emits, without
the interleaved display hyphens (used to relate encoder and decoder). -/
def encodePlain (lat lon : ℚ) : Nat → Rect → List Char
  | 0, _ => []
  | n + 1, r =>
    let s := encodeStep lat lon r
    s.1 :: encodePlain lat lon n s.2

/-- The encoder's working rectangle at the start of iteration `n`. -/
def encodeRectAt (lat lon : ℚ) : Nat → Rect
  | 0 => initRect
  | n + 1 => (encodeStep lat lon (encodeRectAt lat lon n)).2

/-- The first character of the list that is not in the alphabet, with its
zero-based index (offset by the accumulator `i`), if any. -/
def firstBad : List Char → Nat → Option (Char × Nat)
  | [], _ => none
  | c :: cs, i =>
    if CHAR_TO_POSITION c = none then some (c, i) else firstBad cs (i + 1)

/-- Modelled from the spec: the encoder's failure behaviour as §4.2/§7 state
it — fail with `OutOfRange` naming the coordinate, its value and the valid
interval exactly when `lat ∉ [2.5, 38.5]` or `lon ∉ [63.5, 99.5]` (latitude
checked first), succeed otherwise. -/
def encodeFailureSpec (lat lon : ℚ) : Option DigiPinError :=
  if lat < 2.5 ∨ lat > 38.5 then some (.outOfRangeLat lat 2.5 38.5)
  else if lon < 63.5 ∨ lon > 99.5 then some (.outOfRangeLon lon 63.5 99.5)
  else none

/-- Modelled from the spec: the decoder's failure behaviour as §4.3/§7 state
it — strip separators; if the remaining count is not exactly 10 fail with
`InvalidLength` (observed vs expected); otherwise, if some symbol is not in
the alphabet, fail with `InvalidSymbol` naming the first offending character
and its zero-based index in the stripped sequence; succeed otherwise. -/
def decodeFailureSpec (s : String) : Option DigiPinError :=
  let pin := stripHyphens s
  if pin.length ≠ 10 then some (.invalidLength pin.length 10)
  else
    match firstBad pin 0 with
    | some (c, i) => some (.invalidChar c i)
    | none => none

/-- A well-formed display code: stripping the separators leaves exactly ten
characters, each of which is an alphabet symbol. -/
def wellFormedPin (s : String) : Prop :=
  (stripHyphens s).length = 10 ∧
    ∀ c ∈ stripHyphens s, (CHAR_TO_POSITION c).isSome

instance (s : String) : Decidable (wellFormedPin s) := by
  unfold wellFormedPin; infer_instance

set_option allowUnsafeReducibility true
attribute [local semireducible] Rat.mul Rat.add Rat.sub Rat.div Rat.inv Rat.neg
attribute [local semireducible] Rat.ofScientific

set_option maxRecDepth 100000

/-- C4: the symbol table and the symbol-to-position lookup are exact inverses:
for every `(row, col)` in `0..3 × 0..3`, `CHAR_TO_POSITION` applied to the grid
symbol at `(row, col)` returns `(row, col)`; consequently the 16 grid symbols
are pairwise distinct. -/
theorem grid_lookup_bijective :
    (∀ r c : Fin 4,
      CHAR_TO_POSITION (gridChar (r : ℤ) (c : ℤ)) = some ((r : ℤ), (c : ℤ))) ∧
    DIGIPIN_GRID.flatten.Nodup ∧ DIGIPIN_GRID.flatten.length = 16 := by
  refine ⟨by decide, by decide, by decide⟩

/-- C3: `getDigiPin 18.968557 72.822191` is exactly `"4FK-5MK-9PPK"`, and
decoding `"4FK-5MK-9PPK"` gives back latitude `18.968557` and longitude
`72.822191` after the 6-decimal rounding — numerically in the typed variant,
and as the corresponding 6-decimal strings in `src/index.ts`. -/
theorem concrete_vector_encode_decode :
    getDigiPin 18.968557 72.822191 = .ok "4FK-5MK-9PPK" ∧
    Typed.getLatLngFromDigiPin "4FK-5MK-9PPK" = .ok (18.968557, 72.822191) ∧
    getLatLngFromDigiPin "4FK-5MK-9PPK" = .ok ("18.968557", "72.822191") := by
  refine ⟨by decide, by decide, by decide⟩

/-- C2: on a valid code, the typed variant (`src/unnamed/part_000`) returns
the 6-decimal-rounded center as rational numbers, while `src/index.ts`
returns `toFixed(6)` display strings — the two sources disagree on the output
representation, and `src/index.ts` contradicts the repository's own test
suite, which expects numeric equality with `18.968557` / `72.822191`. -/
theorem decode_output_representation :
    Typed.getLatLngFromDigiPin "4FK-5MK-9PPK" =
      .ok ((18968557 : ℚ) / 1000000, (72822191 : ℚ) / 1000000) ∧
    getLatLngFromDigiPin "4FK-5MK-9PPK" = .ok ("18.968557", "72.822191") := by
  refine ⟨by decide, by decide⟩

/-- C7: encoding the exact corners of the bounding box succeeds and yields
well-formed display codes of ten alphabet symbols. -/
theorem boundary_corners_encode :
    getDigiPin 2.5 63.5 = .ok "LLL-LLL-LLLL" ∧
    getDigiPin 38.5 99.5 = .ok "888-888-8888" ∧
    wellFormedPin "LLL-LLL-LLLL" ∧ wellFormedPin "888-888-8888" := by
  refine ⟨by decide, by decide, by decide, by decide⟩

/-- The decoder loop raises exactly the `InvalidSymbol` error for the first
character outside the alphabet, if any. -/
theorem decodeLoop_error_eq (l : List Char) :
    ∀ (i : Nat) (r : Rect),
      exceptError (decodeLoop l i r) =
        (firstBad l i).map (fun p => DigiPinError.invalidChar p.1 p.2) := by
  induction l with
  | nil => intro i r; rfl
  | cons c cs ih =>
    intro i r
    simp only [decodeLoop, firstBad]
    cases h : CHAR_TO_POSITION c with
    | none => simp [h, exceptError]
    | some p => obtain ⟨row, col⟩ := p; simp [h, ih]

/-- C5: encoding fails exactly on out-of-range coordinates, reporting the
violating coordinate, its value and the valid interval, and never clamps; in
particular `getDigiPin 40 72.822191` cites latitude 40 and [2.5, 38.5], and
`getDigiPin 18.968557 100` cites longitude 100 and [63.5, 99.5]. -/
theorem encode_out_of_range_characterization :
    (∀ lat lon : ℚ, exceptError (getDigiPin lat lon) = encodeFailureSpec lat lon) ∧
    getDigiPin 40 72.822191 = .error (.outOfRangeLat 40 2.5 38.5) ∧
    getDigiPin 18.968557 100 = .error (.outOfRangeLon 100 63.5 99.5) := by
  refine ⟨?_, by decide, by decide⟩
  intro lat lon
  show exceptError
      (if lat < 2.5 ∨ lat > 38.5 then _ else if lon < 63.5 ∨ lon > 99.5 then _ else _) = _
  unfold encodeFailureSpec
  split_ifs <;> rfl

/-- C6: decoding fails exactly on invalid input — wrong stripped length
(reported as observed vs expected, before any symbol lookup) or, at length
10, a first character outside the alphabet (reported with its zero-based
stripped index); in particular `"4FK-5MK"` reports 6 vs 10 and
`"XFK-5MK-9PPK"` reports `'X'` at index 0. -/
theorem decode_failure_characterization :
    (∀ s : String, exceptError (getLatLngFromDigiPin s) = decodeFailureSpec s) ∧
    getLatLngFromDigiPin "4FK-5MK" = .error (.invalidLength 6 10) ∧
    getLatLngFromDigiPin "XFK-5MK-9PPK" = .error (.invalidChar 'X' 0) := by
  refine ⟨?_, by decide, by decide⟩
  intro s
  simp only [getLatLngFromDigiPin, decodeFailureSpec, DIGIPIN_LENGTH]
  split_ifs with h
  · rfl
  · have herr := decodeLoop_error_eq (stripHyphens s) 0 initRect
    cases hd : decodeLoop (stripHyphens s) 0 initRect with
    | error e =>
      rw [hd] at herr
      cases hb : firstBad (stripHyphens s) 0 with
      | none => rw [hb] at herr; simp [exceptError] at herr
      | some p =>
        rw [hb] at herr
        simp only [exceptError, Option.map_some'] at herr
        simp [exceptError, herr]
    | ok r =>
      rw [hd] at herr
      cases hb : firstBad (stripHyphens s) 0 with
      | none => simp [exceptError]
      | some p => rw [hb] at herr; simp [exceptError] at herr

/-- Stripping hyphens is idempotent. -/
theorem stripHyphens_idem (s : String) :
    stripHyphens (String.mk (stripHyphens s)) = stripHyphens s := by
  show (stripHyphens s).filter (fun c => c ≠ '-') = stripHyphens s
  unfold stripHyphens
  rw [List.filter_filter]
  simp

/-- C8: decoding is invariant under separator characters — for every input
string, both decoders return the same result on the input and on the input
with all separators removed. -/
theorem decode_separator_invariance (s : String) :
    getLatLngFromDigiPin s = getLatLngFromDigiPin (String.mk (stripHyphens s)) ∧
    Typed.getLatLngFromDigiPin s =
      Typed.getLatLngFromDigiPin (String.mk (stripHyphens s)) := by
  constructor
  · simp only [getLatLngFromDigiPin, stripHyphens_idem]
  · simp only [Typed.getLatLngFromDigiPin, stripHyphens_idem]

/-- In-range grid lookups land in the `CHAR_TO_POSITION` table and return
their own indices. -/
theorem charPos_gridChar (row col : ℤ) (h1 : 0 ≤ row) (h2 : row ≤ 3)
    (h3 : 0 ≤ col) (h4 : col ≤ 3) :
    CHAR_TO_POSITION (gridChar row col) = some (row, col) := by
  interval_cases row <;> interval_cases col <;> decide

/-- In-range grid lookups never produce the separator character. -/
theorem gridChar_ne_dash (row col : ℤ) (h1 : 0 ≤ row) (h2 : row ≤ 3)
    (h3 : 0 ≤ col) (h4 : col ≤ 3) : gridChar row col ≠ '-' := by
  interval_cases row <;> interval_cases col <;> decide

/-- Any position stored in `CHAR_TO_POSITION` is a valid pair of grid
indices. -/
theorem CHAR_TO_POSITION_range {c : Char} {row col : ℤ}
    (h : CHAR_TO_POSITION c = some (row, col)) :
    0 ≤ row ∧ row ≤ 3 ∧ 0 ≤ col ∧ col ≤ 3 := by
  unfold CHAR_TO_POSITION at h
  cases hf : CHAR_TO_POSITION_entries.find? (fun e => e.1 == c) with
  | none => rw [hf] at h; simp at h
  | some e =>
    rw [hf] at h
    simp only [Option.map_some', Option.some.injEq] at h
    have hmem := List.mem_of_find?_eq_some hf
    have hall : ∀ e ∈ CHAR_TO_POSITION_entries,
        0 ≤ e.2.1 ∧ e.2.1 ≤ 3 ∧ 0 ≤ e.2.2 ∧ e.2.2 ≤ 3 := by decide
    have := hall e hmem
    rw [h] at this
    exact this

/-- The row and column indices of `src/index.ts` are clamped into `0..3`
unconditionally. -/
theorem rowIndex_mem (lat : ℚ) (r : Rect) :
    0 ≤ rowIndex lat r ∧ rowIndex lat r ≤ 3 := by
  unfold rowIndex; omega

theorem colIndex_mem (lon : ℚ) (r : Rect) :
    0 ≤ colIndex lon r ∧ colIndex lon r ≤ 3 := by
  unfold colIndex; omega

theorem encodeStep_fst (lat lon : ℚ) (r : Rect) :
    (encodeStep lat lon r).1 = gridChar (rowIndex lat r) (colIndex lon r) := rfl

/-- The quarter of `[lo, hi]` selected by the clamped floored index `g`
contains `x` whenever `x ∈ [lo, hi]`. -/
theorem band_mem (x lo hi : ℚ) (g : ℤ) (h1 : lo ≤ x) (h2 : x ≤ hi)
    (hlt : lo < hi) (hg : g = min 3 ⌊(x - lo) / ((hi - lo) / 4)⌋) :
    lo + (hi - lo) / 4 * (g : ℚ) ≤ x ∧
      x ≤ lo + (hi - lo) / 4 * (g : ℚ) + (hi - lo) / 4 := by
  have hdv : (0 : ℚ) < (hi - lo) / 4 := by
    apply div_pos (by linarith) (by norm_num)
  set dv := (hi - lo) / 4 with hdvdef
  set f := ⌊(x - lo) / dv⌋ with hfdef
  have hf0 : 0 ≤ f := Int.le_floor.2 (by
    exact_mod_cast div_nonneg (by linarith : (0:ℚ) ≤ x - lo) hdv.le)
  have hf4 : f ≤ 4 := by
    have hr : (x - lo) / dv ≤ 4 := by
      rw [div_le_iff₀ hdv]
      have : 4 * dv = hi - lo := by rw [hdvdef]; ring
      linarith
    have := Int.floor_le_floor (α := ℚ) hr
    simpa [hfdef] using this
  have hfl : (f : ℚ) * dv ≤ x - lo := by
    have := Int.floor_le ((x - lo) / dv)
    rw [← hfdef] at this
    calc (f : ℚ) * dv ≤ (x - lo) / dv * dv := by
          apply mul_le_mul_of_nonneg_right this hdv.le
      _ = x - lo := by field_simp
  have hfu : x - lo < ((f : ℚ) + 1) * dv := by
    have := Int.lt_floor_add_one ((x - lo) / dv)
    rw [← hfdef] at this
    calc x - lo = (x - lo) / dv * dv := by field_simp
      _ < ((f : ℚ) + 1) * dv := by
          apply mul_lt_mul_of_pos_right this hdv
  have hgf : g ≤ f := by omega
  have hg0 : 0 ≤ g := by omega
  constructor
  · have : (g : ℚ) * dv ≤ (f : ℚ) * dv := by
      apply mul_le_mul_of_nonneg_right _ hdv.le
      exact_mod_cast hgf
    linarith [this, hfl]
  · rcases (by omega : f ≤ 3 ∨ f = 4) with h | h
    · have hgeq : g = f := by omega
      rw [hgeq]
      linarith [hfu]
    · have hgeq : g = 3 := by omega
      have h4 : 4 * dv = hi - lo := by rw [hdvdef]; ring
      rw [hgeq]
      push_cast
      linarith

/-- One encoder iteration keeps the target point inside the working
rectangle and divides both side lengths by 4. -/
theorem encodeStep_invariant (lat lon : ℚ) (r : Rect)
    (h1 : r.minLat ≤ lat) (h2 : lat ≤ r.maxLat)
    (h3 : r.minLon ≤ lon) (h4 : lon ≤ r.maxLon)
    (h5 : r.minLat < r.maxLat) (h6 : r.minLon < r.maxLon) :
    ((encodeStep lat lon r).2.minLat ≤ lat ∧ lat ≤ (encodeStep lat lon r).2.maxLat ∧
      (encodeStep lat lon r).2.minLon ≤ lon ∧ lon ≤ (encodeStep lat lon r).2.maxLon) ∧
    (encodeStep lat lon r).2.maxLat - (encodeStep lat lon r).2.minLat =
      (r.maxLat - r.minLat) / 4 ∧
    (encodeStep lat lon r).2.maxLon - (encodeStep lat lon r).2.minLon =
      (r.maxLon - r.minLon) / 4 := by
  have hG : GRID_SIZE = (4 : ℚ) := rfl
  have hrow : (3 - rowIndex lat r : ℤ) =
      min 3 ⌊(lat - r.minLat) / ((r.maxLat - r.minLat) / 4)⌋ := by
    have hdv : (0 : ℚ) < (r.maxLat - r.minLat) / 4 :=
      div_pos (by linarith) (by norm_num)
    have hf0 : 0 ≤ ⌊(lat - r.minLat) / ((r.maxLat - r.minLat) / 4)⌋ :=
      Int.le_floor.2 (by push_cast; exact div_nonneg (by linarith) hdv.le)
    unfold rowIndex
    rw [hG]
    omega
  have hcol : colIndex lon r =
      min 3 ⌊(lon - r.minLon) / ((r.maxLon - r.minLon) / 4)⌋ := by
    have hdv : (0 : ℚ) < (r.maxLon - r.minLon) / 4 :=
      div_pos (by linarith) (by norm_num)
    have hf0 : 0 ≤ ⌊(lon - r.minLon) / ((r.maxLon - r.minLon) / 4)⌋ :=
      Int.le_floor.2 (by push_cast; exact div_nonneg (by linarith) hdv.le)
    unfold colIndex
    rw [hG]
    omega
  obtain ⟨hla, hlb⟩ :=
    band_mem lat r.minLat r.maxLat (3 - rowIndex lat r) h1 h2 h5 hrow
  obtain ⟨hoa, hob⟩ :=
    band_mem lon r.minLon r.maxLon (colIndex lon r) h3 h4 h6 hcol
  simp only [encodeStep, hG]
  refine ⟨⟨?_, ?_, ?_, ?_⟩, by ring, by ring⟩
  · exact hla
  · exact hlb
  · exact hoa
  · exact hob

/-- The decoder's narrowing applied to the indices the encoder chose
reconstructs exactly the encoder's narrowed rectangle. -/
theorem decodeStep_encodeStep (lat lon : ℚ) (r : Rect) :
    decodeStep r (rowIndex lat r) (colIndex lon r) = (encodeStep lat lon r).2 := by
  ext <;> simp only [decodeStep, encodeStep, GRID_SIZE] <;> push_cast <;> ring

/-- Decoding the encoder's hyphen-free output succeeds and reproduces the
encoder's final rectangle: the point stays inside it and each side is the
original divided by `4 ^ n`. -/
theorem decodeLoop_encodePlain (lat lon : ℚ) :
    ∀ (n i : Nat) (r : Rect),
      r.minLat ≤ lat → lat ≤ r.maxLat → r.minLon ≤ lon → lon ≤ r.maxLon →
      r.minLat < r.maxLat → r.minLon < r.maxLon →
      ∃ r', decodeLoop (encodePlain lat lon n r) i r = .ok r' ∧
        (r'.minLat ≤ lat ∧ lat ≤ r'.maxLat ∧ r'.minLon ≤ lon ∧ lon ≤ r'.maxLon) ∧
        r'.maxLat - r'.minLat = (r.maxLat - r.minLat) / 4 ^ n ∧
        r'.maxLon - r'.minLon = (r.maxLon - r.minLon) / 4 ^ n := by
  intro n
  induction n with
  | zero =>
    intro i r h1 h2 h3 h4 h5 h6
    exact ⟨r, rfl, ⟨h1, h2, h3, h4⟩, by norm_num, by norm_num⟩
  | succ n ih =>
    intro i r h1 h2 h3 h4 h5 h6
    obtain ⟨⟨m1, m2, m3, m4⟩, w1, w2⟩ :=
      encodeStep_invariant lat lon r h1 h2 h3 h4 h5 h6
    have h5' : (encodeStep lat lon r).2.minLat < (encodeStep lat lon r).2.maxLat := by
      have : (0 : ℚ) < (r.maxLat - r.minLat) / 4 :=
        div_pos (by linarith) (by norm_num)
      linarith
    have h6' : (encodeStep lat lon r).2.minLon < (encodeStep lat lon r).2.maxLon := by
      have : (0 : ℚ) < (r.maxLon - r.minLon) / 4 :=
        div_pos (by linarith) (by norm_num)
      linarith
    obtain ⟨r', hok, hmem, hw1, hw2⟩ :=
      ih (i + 1) (encodeStep lat lon r).2 m1 m2 m3 m4 h5' h6'
    have hrow := rowIndex_mem lat r
    have hcol := colIndex_mem lon r
    refine ⟨r', ?_, hmem, ?_, ?_⟩
    · simp only [encodePlain, decodeLoop, encodeStep_fst,
        charPos_gridChar (rowIndex lat r) (colIndex lon r)
          hrow.1 hrow.2 hcol.1 hcol.2,
        decodeStep_encodeStep]
      exact hok
    · rw [hw1, w1, div_div, ← pow_succ']
    · rw [hw2, w2, div_div, ← pow_succ']

/-- Stripping the hyphens from the encoder loop's output leaves exactly the
ten grid characters. -/
theorem encodeLevels_filter (lat lon : ℚ) :
    ∀ (n level : Nat) (r : Rect),
      (encodeLevels lat lon n level r).filter (fun c => c ≠ '-') =
        encodePlain lat lon n r := by
  intro n
  induction n with
  | zero => intro level r; rfl
  | succ n ih =>
    intro level r
    have hrow := rowIndex_mem lat r
    have hcol := colIndex_mem lon r
    have hne : ¬((encodeStep lat lon r).1 = '-') := by
      rw [encodeStep_fst]
      exact gridChar_ne_dash _ _ hrow.1 hrow.2 hcol.1 hcol.2
    simp only [encodeLevels, encodePlain]
    split_ifs with h <;> simp [List.filter_cons, hne] <;>
      simpa using ih (level + 1) (encodeStep lat lon r).2

theorem encodePlain_length (lat lon : ℚ) :
    ∀ (n : Nat) (r : Rect), (encodePlain lat lon n r).length = n := by
  intro n
  induction n with
  | zero => intro r; rfl
  | succ n ih => intro r; simp [encodePlain, ih]

/-- The typed variant's decoder narrowing equals `src/index.ts`'s. -/
theorem typedDecodeStep_eq (r : Rect) (row col : ℤ) :
    Typed.decodeStep r row col = decodeStep r row col := by
  ext <;> simp only [Typed.decodeStep, decodeStep, GRID_SIZE] <;> push_cast <;> ring

theorem typedDecodeLoop_eq :
    ∀ (l : List Char) (i : Nat) (r : Rect),
      Typed.decodeLoop l i r = decodeLoop l i r := by
  intro l
  induction l with
  | nil => intro i r; rfl
  | cons c cs ih =>
    intro i r
    simp only [Typed.decodeLoop, decodeLoop]
    cases h : CHAR_TO_POSITION c with
    | none => rfl
    | some p =>
      obtain ⟨row, col⟩ := p
      simp only [typedDecodeStep_eq, ih]

/-- JS rounding moves a value by at most one half. -/
theorem mathRound_close (y : ℚ) : |(mathRound y : ℚ) - y| ≤ 1 / 2 := by
  unfold mathRound
  have h1 : (⌊y + 1 / 2⌋ : ℚ) ≤ y + 1 / 2 := Int.floor_le _
  have h2 : y + 1 / 2 < (⌊y + 1 / 2⌋ : ℚ) + 1 := Int.lt_floor_add_one _
  rw [abs_le]
  constructor <;> linarith

/-- Rounding to six decimals moves a value by at most half of `10 ^ (-6)`. -/
theorem mathRound6_close (x : ℚ) :
    |(mathRound (x * 1000000) : ℚ) / 1000000 - x| ≤ 1 / 2000000 := by
  have h := mathRound_close (x * 1000000)
  rw [abs_le] at h ⊢
  obtain ⟨ha, hb⟩ := h
  constructor <;> linarith

/-- C1: for every point of the bounding box, decoding the code produced by
the encoder succeeds and returns a point (numeric, 6-decimal-rounded) whose
latitude and longitude each differ from the input by less than `0.0001`
degrees — half the final-level cell width plus the rounding slack. -/
theorem roundtrip_within_half_cell (lat lon : ℚ)
    (h1 : 2.5 ≤ lat) (h2 : lat ≤ 38.5) (h3 : 63.5 ≤ lon) (h4 : lon ≤ 99.5) :
    ∃ (s : String) (la lo : ℚ),
      getDigiPin lat lon = .ok s ∧
      Typed.getLatLngFromDigiPin s = .ok (la, lo) ∧
      |la - lat| < 0.0001 ∧ |lo - lon| < 0.0001 := by
  have hb1 : ¬(lat < BOUNDS.minLat ∨ lat > BOUNDS.maxLat) := by
    push_neg
    constructor
    · show BOUNDS.minLat ≤ lat; simp only [BOUNDS]; exact h1
    · show lat ≤ BOUNDS.maxLat; simp only [BOUNDS]; exact h2
  have hb2 : ¬(lon < BOUNDS.minLon ∨ lon > BOUNDS.maxLon) := by
    push_neg
    constructor
    · show BOUNDS.minLon ≤ lon; simp only [BOUNDS]; exact h3
    · show lon ≤ BOUNDS.maxLon; simp only [BOUNDS]; exact h4
  have hi1 : initRect.minLat ≤ lat := by simp only [initRect, BOUNDS]; exact h1
  have hi2 : lat ≤ initRect.maxLat := by simp only [initRect, BOUNDS]; exact h2
  have hi3 : initRect.minLon ≤ lon := by simp only [initRect, BOUNDS]; exact h3
  have hi4 : lon ≤ initRect.maxLon := by simp only [initRect, BOUNDS]; exact h4
  have hi5 : initRect.minLat < initRect.maxLat := by norm_num [initRect, BOUNDS]
  have hi6 : initRect.minLon < initRect.maxLon := by norm_num [initRect, BOUNDS]
  obtain ⟨r', hok, ⟨hm1, hm2, hm3, hm4⟩, hw1, hw2⟩ :=
    decodeLoop_encodePlain lat lon 10 0 initRect hi1 hi2 hi3 hi4 hi5 hi6
  have hwlat : r'.maxLat - r'.minLat = 36 / 1048576 := by
    rw [hw1]; norm_num [initRect, BOUNDS]
  have hwlon : r'.maxLon - r'.minLon = 36 / 1048576 := by
    rw [hw2]; norm_num [initRect, BOUNDS]
  have hstrip : stripHyphens (String.mk (encodeLevels lat lon 10 0 initRect)) =
      encodePlain lat lon 10 initRect := by
    show (encodeLevels lat lon 10 0 initRect).filter (fun c => c ≠ '-') = _
    exact encodeLevels_filter lat lon 10 0 initRect
  have hlen : (encodePlain lat lon 10 initRect).length = 10 :=
    encodePlain_length lat lon 10 initRect
  refine ⟨String.mk (encodeLevels lat lon DIGIPIN_LENGTH 0 initRect),
    (mathRound ((r'.minLat + r'.maxLat) * 0.5 * 1000000) : ℚ) / 1000000,
    (mathRound ((r'.minLon + r'.maxLon) * 0.5 * 1000000) : ℚ) / 1000000,
    ?_, ?_, ?_, ?_⟩
  · unfold getDigiPin
    rw [if_neg hb1, if_neg hb2]
  · show Typed.getLatLngFromDigiPin
      (String.mk (encodeLevels lat lon 10 0 initRect)) = _
    simp only [Typed.getLatLngFromDigiPin, hstrip, hlen, DIGIPIN_LENGTH,
      typedDecodeLoop_eq, hok]
    norm_num
  · have hc : |(r'.minLat + r'.maxLat) * 0.5 - lat| ≤ 18 / 1048576 := by
      rw [abs_le]
      constructor <;> linarith [hwlat, hm1, hm2]
    have hr := mathRound6_close ((r'.minLat + r'.maxLat) * 0.5)
    have := abs_sub_le
      ((mathRound ((r'.minLat + r'.maxLat) * 0.5 * 1000000) : ℚ) / 1000000)
      ((r'.minLat + r'.maxLat) * 0.5) lat
    have hnum : (1 : ℚ) / 2000000 + 18 / 1048576 < 0.0001 := by norm_num
    linarith
  · have hc : |(r'.minLon + r'.maxLon) * 0.5 - lon| ≤ 18 / 1048576 := by
      rw [abs_le]
      constructor <;> linarith [hwlon, hm3, hm4]
    have hr := mathRound6_close ((r'.minLon + r'.maxLon) * 0.5)
    have := abs_sub_le
      ((mathRound ((r'.minLon + r'.maxLon) * 0.5 * 1000000) : ℚ) / 1000000)
      ((r'.minLon + r'.maxLon) * 0.5) lon
    have hnum : (1 : ℚ) / 2000000 + 18 / 1048576 < 0.0001 := by norm_num
    linarith

/-- Witness for C1 at the spec's concrete vector. -/
theorem roundtrip_within_half_cell_witness :
    ∃ (s : String) (la lo : ℚ),
      getDigiPin 18.968557 72.822191 = .ok s ∧
      Typed.getLatLngFromDigiPin s = .ok (la, lo) ∧
      |la - 18.968557| < 0.0001 ∧ |lo - 72.822191| < 0.0001 :=
  roundtrip_within_half_cell 18.968557 72.822191
    (by norm_num) (by norm_num) (by norm_num) (by norm_num)

/-- For in-box inputs the encoder's working rectangle always contains the
point and stays proper. -/
theorem encodeRectAt_invariant (lat lon : ℚ)
    (h1 : 2.5 ≤ lat) (h2 : lat ≤ 38.5) (h3 : 63.5 ≤ lon) (h4 : lon ≤ 99.5) :
    ∀ n : Nat,
      (encodeRectAt lat lon n).minLat ≤ lat ∧
      lat ≤ (encodeRectAt lat lon n).maxLat ∧
      (encodeRectAt lat lon n).minLon ≤ lon ∧
      lon ≤ (encodeRectAt lat lon n).maxLon ∧
      (encodeRectAt lat lon n).minLat < (encodeRectAt lat lon n).maxLat ∧
      (encodeRectAt lat lon n).minLon < (encodeRectAt lat lon n).maxLon := by
  intro n
  induction n with
  | zero =>
    refine ⟨?_, ?_, ?_, ?_, ?_, ?_⟩ <;>
      simp only [encodeRectAt, initRect, BOUNDS] <;>
      first
        | exact h1
        | exact h2
        | exact h3
        | exact h4
        | norm_num
  | succ n ih =>
    obtain ⟨a1, a2, a3, a4, a5, a6⟩ := ih
    obtain ⟨⟨m1, m2, m3, m4⟩, w1, w2⟩ :=
      encodeStep_invariant lat lon (encodeRectAt lat lon n) a1 a2 a3 a4 a5 a6
    have q1 : (0 : ℚ) <
        ((encodeRectAt lat lon n).maxLat - (encodeRectAt lat lon n).minLat) / 4 :=
      div_pos (by linarith) (by norm_num)
    have q2 : (0 : ℚ) <
        ((encodeRectAt lat lon n).maxLon - (encodeRectAt lat lon n).minLon) / 4 :=
      div_pos (by linarith) (by norm_num)
    refine ⟨?_, ?_, ?_, ?_, ?_, ?_⟩ <;> simp only [encodeRectAt]
    · exact m1
    · exact m2
    · exact m3
    · exact m4
    · linarith [w1]
    · linarith [w2]

/-- C9: for in-box inputs, at every level the computed row and column indices
lie in `0..3` — in `src/index.ts`'s clamp order and in the typed variant's
(upper clamp before the inversion, lower clamp after it), which agree — so
the grid table access is always defined (the looked-up symbol is in the
alphabet). -/
theorem encode_indices_in_range (lat lon : ℚ)
    (h1 : 2.5 ≤ lat) (h2 : lat ≤ 38.5) (h3 : 63.5 ≤ lon) (h4 : lon ≤ 99.5)
    (n : Nat) :
    (0 ≤ rowIndex lat (encodeRectAt lat lon n) ∧
      rowIndex lat (encodeRectAt lat lon n) ≤ 3) ∧
    (0 ≤ colIndex lon (encodeRectAt lat lon n) ∧
      colIndex lon (encodeRectAt lat lon n) ≤ 3) ∧
    Typed.rowIndex lat (encodeRectAt lat lon n) =
      rowIndex lat (encodeRectAt lat lon n) ∧
    Typed.colIndex lon (encodeRectAt lat lon n) =
      colIndex lon (encodeRectAt lat lon n) ∧
    (CHAR_TO_POSITION (gridChar (Typed.rowIndex lat (encodeRectAt lat lon n))
        (Typed.colIndex lon (encodeRectAt lat lon n)))).isSome = true := by
  obtain ⟨a1, a2, a3, a4, a5, a6⟩ := encodeRectAt_invariant lat lon h1 h2 h3 h4 n
  set r := encodeRectAt lat lon n with hr
  have hG : GRID_SIZE = (4 : ℚ) := rfl
  have hdlat : (0 : ℚ) < (r.maxLat - r.minLat) / GRID_SIZE := by
    rw [hG]; exact div_pos (by linarith) (by norm_num)
  have hq25lat : (r.maxLat - r.minLat) * 0.25 = (r.maxLat - r.minLat) / GRID_SIZE := by
    rw [hG]; ring
  have hq25lon : (r.maxLon - r.minLon) * 0.25 = (r.maxLon - r.minLon) / GRID_SIZE := by
    rw [hG]; ring
  have hf0lat : 0 ≤ ⌊(lat - r.minLat) / ((r.maxLat - r.minLat) / GRID_SIZE)⌋ :=
    Int.le_floor.2 (by exact_mod_cast div_nonneg (by linarith) hdlat.le)
  have hrweq : Typed.rowIndex lat r = rowIndex lat r := by
    unfold Typed.rowIndex rowIndex
    rw [hq25lat]
    set f := ⌊(lat - r.minLat) / ((r.maxLat - r.minLat) / GRID_SIZE)⌋ with hf
    dsimp only
    split_ifs <;> omega
  have hcweq : Typed.colIndex lon r = colIndex lon r := by
    unfold Typed.colIndex colIndex
    rw [hq25lon]
    set f := ⌊(lon - r.minLon) / ((r.maxLon - r.minLon) / GRID_SIZE)⌋ with hf
    dsimp only
    split_ifs <;> omega
  refine ⟨rowIndex_mem lat r, colIndex_mem lon r, hrweq, hcweq, ?_⟩
  rw [hrweq, hcweq,
    charPos_gridChar _ _ (rowIndex_mem lat r).1 (rowIndex_mem lat r).2
      (colIndex_mem lon r).1 (colIndex_mem lon r).2]
  rfl

/-- Witness for C9 at the spec's concrete vector, level 0. -/
theorem encode_indices_in_range_witness :
    (0 ≤ rowIndex 18.968557 (encodeRectAt 18.968557 72.822191 0) ∧
      rowIndex 18.968557 (encodeRectAt 18.968557 72.822191 0) ≤ 3) ∧
    (0 ≤ colIndex 72.822191 (encodeRectAt 18.968557 72.822191 0) ∧
      colIndex 72.822191 (encodeRectAt 18.968557 72.822191 0) ≤ 3) ∧
    Typed.rowIndex 18.968557 (encodeRectAt 18.968557 72.822191 0) =
      rowIndex 18.968557 (encodeRectAt 18.968557 72.822191 0) ∧
    Typed.colIndex 72.822191 (encodeRectAt 18.968557 72.822191 0) =
      colIndex 72.822191 (encodeRectAt 18.968557 72.822191 0) ∧
    (CHAR_TO_POSITION
        (gridChar (Typed.rowIndex 18.968557 (encodeRectAt 18.968557 72.822191 0))
          (Typed.colIndex 72.822191 (encodeRectAt 18.968557 72.822191 0)))).isSome =
      true :=
  encode_indices_in_range 18.968557 72.822191
    (by norm_num) (by norm_num) (by norm_num) (by norm_num) 0

/-- One decoder iteration keeps the working rectangle nested inside the
previous one (hence inside the bounding box) for table indices in `0..3`. -/
theorem decodeStep_sub (r : Rect) (row col : ℤ)
    (h1 : 0 ≤ row) (h2 : row ≤ 3) (h3 : 0 ≤ col) (h4 : col ≤ 3)
    (hp : r.minLat ≤ r.maxLat) (hq : r.minLon ≤ r.maxLon) :
    r.minLat ≤ (decodeStep r row col).minLat ∧
    (decodeStep r row col).maxLat ≤ r.maxLat ∧
    (decodeStep r row col).minLat ≤ (decodeStep r row col).maxLat ∧
    r.minLon ≤ (decodeStep r row col).minLon ∧
    (decodeStep r row col).maxLon ≤ r.maxLon ∧
    (decodeStep r row col).minLon ≤ (decodeStep r row col).maxLon := by
  have hG : GRID_SIZE = (4 : ℚ) := rfl
  simp only [decodeStep, hG]
  push_cast
  have hdlat : (0 : ℚ) ≤ (r.maxLat - r.minLat) / 4 :=
    div_nonneg (by linarith) (by norm_num)
  have hdlon : (0 : ℚ) ≤ (r.maxLon - r.minLon) / 4 :=
    div_nonneg (by linarith) (by norm_num)
  have hr1 : (0 : ℚ) ≤ (row : ℚ) := by exact_mod_cast h1
  have hr2 : (row : ℚ) + 1 ≤ 4 := by
    have : (row : ℚ) ≤ 3 := by exact_mod_cast h2
    linarith
  have hc1 : (0 : ℚ) ≤ (col : ℚ) := by exact_mod_cast h3
  have hc2 : (col : ℚ) + 1 ≤ 4 := by
    have : (col : ℚ) ≤ 3 := by exact_mod_cast h4
    linarith
  have k1 : (r.maxLat - r.minLat) / 4 * ((row : ℚ) + 1) ≤
      (r.maxLat - r.minLat) / 4 * 4 :=
    mul_le_mul_of_nonneg_left hr2 hdlat
  have k2 : (0 : ℚ) ≤ (r.maxLat - r.minLat) / 4 * (row : ℚ) :=
    mul_nonneg hdlat hr1
  have k3 : (r.maxLat - r.minLat) / 4 * 4 = r.maxLat - r.minLat := by ring
  have k4 : (r.maxLat - r.minLat) / 4 * ((row : ℚ) + 1) =
      (r.maxLat - r.minLat) / 4 * (row : ℚ) + (r.maxLat - r.minLat) / 4 := by ring
  have l1 : (r.maxLon - r.minLon) / 4 * ((col : ℚ) + 1) ≤
      (r.maxLon - r.minLon) / 4 * 4 :=
    mul_le_mul_of_nonneg_left hc2 hdlon
  have l2 : (0 : ℚ) ≤ (r.maxLon - r.minLon) / 4 * (col : ℚ) :=
    mul_nonneg hdlon hc1
  have l3 : (r.maxLon - r.minLon) / 4 * 4 = r.maxLon - r.minLon := by ring
  have l4 : (r.maxLon - r.minLon) / 4 * ((col : ℚ) + 1) =
      (r.maxLon - r.minLon) / 4 * (col : ℚ) + (r.maxLon - r.minLon) / 4 := by ring
  refine ⟨?_, ?_, ?_, ?_, ?_, ?_⟩ <;> linarith

/-- Every rectangle the decoder loop goes through — in particular the final
one — stays inside the bounding box and stays ordered. -/
theorem decodeLoop_sub :
    ∀ (l : List Char) (i : Nat) (r r' : Rect),
      decodeLoop l i r = .ok r' →
      2.5 ≤ r.minLat → r.maxLat ≤ 38.5 → r.minLat ≤ r.maxLat →
      63.5 ≤ r.minLon → r.maxLon ≤ 99.5 → r.minLon ≤ r.maxLon →
      2.5 ≤ r'.minLat ∧ r'.maxLat ≤ 38.5 ∧ r'.minLat ≤ r'.maxLat ∧
        63.5 ≤ r'.minLon ∧ r'.maxLon ≤ 99.5 ∧ r'.minLon ≤ r'.maxLon := by
  intro l
  induction l with
  | nil =>
    intro i r r' h b1 b2 b3 b4 b5 b6
    simp only [decodeLoop, Except.ok.injEq] at h
    subst h
    exact ⟨b1, b2, b3, b4, b5, b6⟩
  | cons c cs ih =>
    intro i r r' h b1 b2 b3 b4 b5 b6
    simp only [decodeLoop] at h
    cases hc : CHAR_TO_POSITION c with
    | none => rw [hc] at h; simp at h
    | some p =>
      obtain ⟨row, col⟩ := p
      rw [hc] at h
      obtain ⟨q1, q2, q3, q4⟩ := CHAR_TO_POSITION_range hc
      obtain ⟨s1, s2, s3, s4, s5, s6⟩ := decodeStep_sub r row col q1 q2 q3 q4 b3 b6
      exact ih (i + 1) (decodeStep r row col) r' h
        (by linarith) (by linarith) s3 (by linarith) (by linarith) s6

/-- The decoder loop on an appended list runs the first part, then the
second from where the first stopped. -/
theorem decodeLoop_append :
    ∀ (l1 l2 : List Char) (i : Nat) (r : Rect),
      decodeLoop (l1 ++ l2) i r =
        match decodeLoop l1 i r with
        | .error e => .error e
        | .ok r' => decodeLoop l2 (i + l1.length) r' := by
  intro l1
  induction l1 with
  | nil => intro l2 i r; simp [decodeLoop]
  | cons c cs ih =>
    intro l2 i r
    simp only [List.cons_append, decodeLoop]
    cases hc : CHAR_TO_POSITION c with
    | none => rfl
    | some p =>
      obtain ⟨row, col⟩ := p
      simp only [List.append_eq, ih, List.length_cons]
      rw [show i + 1 + cs.length = i + (cs.length + 1) from by omega]

/-- Six-decimal rounding respects an upper bound that is itself a multiple
of `10 ^ (-6)`. -/
theorem mathRound6_le (x : ℚ) (m : ℤ) (h : x * 1000000 ≤ (m : ℚ)) :
    (mathRound (x * 1000000) : ℚ) / 1000000 ≤ (m : ℚ) / 1000000 := by
  have h1 : mathRound (x * 1000000) ≤ m := by
    unfold mathRound
    have h2 : (⌊x * 1000000 + 1 / 2⌋ : ℤ) ≤ ⌊(m : ℚ) + 1 / 2⌋ :=
      Int.floor_le_floor (by linarith)
    have h3 : ⌊(m : ℚ) + 1 / 2⌋ = m := by
      rw [Int.floor_int_add]
      norm_num
    omega
  have h4 : (mathRound (x * 1000000) : ℚ) ≤ (m : ℚ) := by exact_mod_cast h1
  linarith

/-- Six-decimal rounding respects a lower bound that is itself a multiple
of `10 ^ (-6)`. -/
theorem le_mathRound6 (x : ℚ) (m : ℤ) (h : (m : ℚ) ≤ x * 1000000) :
    (m : ℚ) / 1000000 ≤ (mathRound (x * 1000000) : ℚ) / 1000000 := by
  have h1 : m ≤ mathRound (x * 1000000) := by
    unfold mathRound
    exact Int.le_floor.2 (by linarith)
  have h4 : (m : ℚ) ≤ (mathRound (x * 1000000) : ℚ) := by exact_mod_cast h1
  linarith

/-- C10: on any successfully decoded code, every rectangle the decoder walks
through (every prefix of the stripped pin) stays nested inside the bounding
box, the returned rounded center lies inside the box, and re-encoding that
center succeeds. -/
theorem decode_center_in_box_reencodable (s : String) (la lo : ℚ)
    (h : Typed.getLatLngFromDigiPin s = .ok (la, lo)) :
    (∀ l1 l2 : List Char, stripHyphens s = l1 ++ l2 →
      ∃ ri, decodeLoop l1 0 initRect = .ok ri ∧
        2.5 ≤ ri.minLat ∧ ri.maxLat ≤ 38.5 ∧ ri.minLat ≤ ri.maxLat ∧
        63.5 ≤ ri.minLon ∧ ri.maxLon ≤ 99.5 ∧ ri.minLon ≤ ri.maxLon) ∧
    (2.5 ≤ la ∧ la ≤ 38.5 ∧ 63.5 ≤ lo ∧ lo ≤ 99.5) ∧
    ∃ c, getDigiPin la lo = .ok c := by
  have hb1 : (2.5 : ℚ) ≤ initRect.minLat := by norm_num [initRect, BOUNDS]
  have hb2 : initRect.maxLat ≤ (38.5 : ℚ) := by norm_num [initRect, BOUNDS]
  have hb3 : initRect.minLat ≤ initRect.maxLat := by norm_num [initRect, BOUNDS]
  have hb4 : (63.5 : ℚ) ≤ initRect.minLon := by norm_num [initRect, BOUNDS]
  have hb5 : initRect.maxLon ≤ (99.5 : ℚ) := by norm_num [initRect, BOUNDS]
  have hb6 : initRect.minLon ≤ initRect.maxLon := by norm_num [initRect, BOUNDS]
  unfold Typed.getLatLngFromDigiPin at h
  dsimp only at h
  split_ifs at h with hlen
  cases hd : Typed.decodeLoop (stripHyphens s) 0 initRect with
  | error e => rw [hd] at h; simp at h
  | ok r =>
    rw [hd] at h
    simp only [Except.ok.injEq, Prod.mk.injEq] at h
    obtain ⟨hla, hlo⟩ := h
    have hd' : decodeLoop (stripHyphens s) 0 initRect = .ok r := by
      rw [← typedDecodeLoop_eq]; exact hd
    obtain ⟨c1, c2, c3, c4, c5, c6⟩ :=
      decodeLoop_sub (stripHyphens s) 0 initRect r hd' hb1 hb2 hb3 hb4 hb5 hb6
    have hclat1 : (2.5 : ℚ) ≤ (r.minLat + r.maxLat) * 0.5 := by linarith
    have hclat2 : (r.minLat + r.maxLat) * 0.5 ≤ (38.5 : ℚ) := by linarith
    have hclon1 : (63.5 : ℚ) ≤ (r.minLon + r.maxLon) * 0.5 := by linarith
    have hclon2 : (r.minLon + r.maxLon) * 0.5 ≤ (99.5 : ℚ) := by linarith
    have hla1 : (2.5 : ℚ) ≤ la := by
      rw [← hla]
      have := le_mathRound6 ((r.minLat + r.maxLat) * 0.5) 2500000 (by push_cast; linarith)
      have he : ((2500000 : ℤ) : ℚ) / 1000000 = 2.5 := by norm_num
      linarith
    have hla2 : la ≤ (38.5 : ℚ) := by
      rw [← hla]
      have := mathRound6_le ((r.minLat + r.maxLat) * 0.5) 38500000 (by push_cast; linarith)
      have he : ((38500000 : ℤ) : ℚ) / 1000000 = 38.5 := by norm_num
      linarith
    have hlo1 : (63.5 : ℚ) ≤ lo := by
      rw [← hlo]
      have := le_mathRound6 ((r.minLon + r.maxLon) * 0.5) 63500000 (by push_cast; linarith)
      have he : ((63500000 : ℤ) : ℚ) / 1000000 = 63.5 := by norm_num
      linarith
    have hlo2 : lo ≤ (99.5 : ℚ) := by
      rw [← hlo]
      have := mathRound6_le ((r.minLon + r.maxLon) * 0.5) 99500000 (by push_cast; linarith)
      have he : ((99500000 : ℤ) : ℚ) / 1000000 = 99.5 := by norm_num
      linarith
    refine ⟨?_, ⟨hla1, hla2, hlo1, hlo2⟩, ?_⟩
    · intro l1 l2 heq
      have hd2 := hd'
      rw [heq, decodeLoop_append] at hd2
      cases hp : decodeLoop l1 0 initRect with
      | error e => rw [hp] at hd2; simp at hd2
      | ok ri =>
        obtain ⟨d1, d2, d3, d4, d5, d6⟩ :=
          decodeLoop_sub l1 0 initRect ri hp hb1 hb2 hb3 hb4 hb5 hb6
        exact ⟨ri, rfl, d1, d2, d3, d4, d5, d6⟩
    · refine ⟨String.mk (encodeLevels la lo DIGIPIN_LENGTH 0 initRect), ?_⟩
      unfold getDigiPin
      rw [if_neg, if_neg]
      · push_neg
        constructor
        · show BOUNDS.minLon ≤ lo
          simp only [BOUNDS]
          exact hlo1
        · show lo ≤ BOUNDS.maxLon
          simp only [BOUNDS]
          exact hlo2
      · push_neg
        constructor
        · show BOUNDS.minLat ≤ la
          simp only [BOUNDS]
          exact hla1
        · show la ≤ BOUNDS.maxLat
          simp only [BOUNDS]
          exact hla2

/-- Witness for C10 at the spec's concrete code. -/
theorem decode_center_in_box_reencodable_witness :
    (∀ l1 l2 : List Char, stripHyphens "4FK-5MK-9PPK" = l1 ++ l2 →
      ∃ ri, decodeLoop l1 0 initRect = .ok ri ∧
        2.5 ≤ ri.minLat ∧ ri.maxLat ≤ 38.5 ∧ ri.minLat ≤ ri.maxLat ∧
        63.5 ≤ ri.minLon ∧ ri.maxLon ≤ 99.5 ∧ ri.minLon ≤ ri.maxLon) ∧
    ((2.5 : ℚ) ≤ 18.968557 ∧ (18.968557 : ℚ) ≤ 38.5 ∧
      (63.5 : ℚ) ≤ 72.822191 ∧ (72.822191 : ℚ) ≤ 99.5) ∧
    ∃ c, getDigiPin 18.968557 72.822191 = .ok c :=
  decode_center_in_box_reencodable "4FK-5MK-9PPK" 18.968557 72.822191 (by decide)

end Digipin
